import Mathlib

/-!
Verification of the merge-request-quality-validator repository.

Text is modelled as `List Char` (`Str`), mirroring Python strings.  Each
definition is a shallow embedding of a function of the repository's source
(`src/analyzer.py`, `src/main.py`, `src/repository_parser.py`,
`src/app/modules/analyzer.py`); doc comments name the source function.
-/

/-- Python strings are modelled as lists of characters. -/
abbrev Str := List Char

/-- Coerce a Lean string literal to the `Str` model. -/
def str (s : String) : Str := s.data

/-- Python `str.strip()` whitespace test (ASCII whitespace characters). -/
def isPyWs (c : Char) : Bool :=
  c = ' ' ∨ c = '\t' ∨ c = '\n' ∨ c = '\r' ∨ c = '\x0b' ∨ c = '\x0c'

/-- Model of Python `str.lstrip()` (no arguments). -/
def lstrip (s : Str) : Str := s.dropWhile isPyWs

/-- Model of Python `str.rstrip()` (no arguments). -/
def rstrip (s : Str) : Str := (s.reverse.dropWhile isPyWs).reverse

/-- Model of Python `str.strip()` (no arguments). -/
def strip (s : Str) : Str := rstrip (lstrip s)

/-- Model of Python `line.rstrip('\r\n')` from `generate_diff_content` in
`src/main.py`: drop trailing carriage-return and line-feed characters. -/
def rstripCRLF (s : Str) : Str :=
  (s.reverse.dropWhile (fun c => c = '\r' ∨ c = '\n')).reverse

/-- Fuel-driven worker for `splitOnSub`; with fuel at least the length of
the input (and a non-empty separator) it computes Python's
non-overlapping left-to-right substring split. -/
def splitGo (sep : Str) : Nat → Str → List Str
  | _, [] => [[]]
  | 0, s => [s]
  | n + 1, c :: rest =>
    if sep.isPrefixOf (c :: rest) then
      [] :: splitGo sep n ((c :: rest).drop sep.length)
    else
      match splitGo sep n rest with
      | [] => [[c]]
      | t :: ts => (c :: t) :: ts

/-- Model of Python `str.split(sep)` for a non-empty separator `sep`:
non-overlapping left-to-right splitting on the separator substring. -/
def splitOnSub (sep : Str) (s : Str) : List Str := splitGo sep s.length s

/-- Model of Python `str.split('\n', 1)`: the first line and, when a newline
is present, the remainder after it. -/
def splitFirstLine (s : Str) : Str × Option Str :=
  match s with
  | [] => ([], none)
  | c :: rest =>
    if c = '\n' then ([], some rest)
    else
      let p := splitFirstLine rest
      (c :: p.1, p.2)

/-- Model of Python `sep.join(parts)`. -/
def joinSep (sep : Str) : List Str → Str
  | [] => []
  | [s] => s
  | s :: t :: rest => s ++ sep ++ joinSep sep (t :: rest)

/-- Decimal rendering of a natural number, as in a Python f-string. -/
def natToStr (n : Nat) : Str := Nat.toDigits 10 n

/-- Model of the Python substring test `pat in s`. -/
def containsSub (pat : Str) : Str → Bool
  | [] => pat.isPrefixOf []
  | c :: rest => pat.isPrefixOf (c :: rest) || containsSub pat rest

/-- Model of Python `s.find(pat)`, returning the index of the first
occurrence of `pat` (as `Option` instead of `-1`). -/
def findSub (pat : Str) : Str → Option Nat
  | [] => if pat.isPrefixOf ([] : Str) then some 0 else none
  | c :: rest =>
    if pat.isPrefixOf (c :: rest) then some 0
    else (findSub pat rest).map (· + 1)

/-- The 48-`=` delimiter string used by both dump parsers. -/
def delim48 : Str := List.replicate 48 '='

/-- The newline-wrapped delimiter `"\n" + 48*"=" + "\n"` used by
`parse_repository_file` in `src/main.py`. -/
def sepM : Str := '\n' :: (delim48 ++ ['\n'])

/-- Python-dict insertion: update the value in place when the key exists,
append otherwise (insertion order preserved, as for a Python `dict`). -/
def insertEntry (acc : List (Str × Str)) (k v : Str) : List (Str × Str) :=
  match acc with
  | [] => [(k, v)]
  | (k', v') :: rest =>
    if k' = k then (k', v) :: rest else (k', v') :: insertEntry rest k v

/-- One loop iteration of `parse_repository_file` in `src/main.py`
(lines 73-91): strip the section, split off the first line, require a
`FILE:` prefix, strip the filename and content, skip empty filenames. -/
def stepM (acc : List (Str × Str)) (section' : Str) : List (Str × Str) :=
  let s := strip section'
  if s = [] then acc
  else
    let p := splitFirstLine s
    if (str "FILE:").isPrefixOf p.1 then
      let filename := strip (p.1.drop 5)
      if filename = [] then acc
      else
        let fileContent := match p.2 with
          | some r => strip r
          | none => []
        insertEntry acc filename fileContent
    else acc

/-- Pure core of `parse_repository_file` in `src/main.py` (lines 62-98):
split the dump text on the newline-wrapped 48-`=` delimiter and collect the
`FILE:` sections into a path-to-content mapping. -/
def parseDumpM (content : Str) : List (Str × Str) :=
  if content = [] then []
  else (splitOnSub sepM content).foldl stepM []

/-- Errors of the dump-parsing paths: missing input file, or the
`IndexError` raised by `file_sections[i+1]` in `src/analyzer.py`. -/
inductive PError where
  | notFound
  | indexError
deriving DecidableEq, Repr

instance {ε α : Type} [DecidableEq ε] [DecidableEq α] : DecidableEq (Except ε α)
  | .ok x, .ok y =>
    if h : x = y then isTrue (by rw [h])
    else isFalse (fun hc => h (Except.ok.injEq .. ▸ hc))
  | .ok _, .error _ => isFalse (fun hc => Except.noConfusion hc)
  | .error _, .ok _ => isFalse (fun hc => Except.noConfusion hc)
  | .error e, .error f =>
    if h : e = f then isTrue (by rw [h])
    else isFalse (fun hc => h (Except.error.injEq .. ▸ hc))

/-- The pairing loop of `parse_repository_file` in `src/analyzer.py`
(lines 67-69): every section containing `"FILE: "` is concatenated with the
following section; when no following section exists, Python raises
`IndexError` on `file_sections[i+1]`. -/
def buildFiltered : List Str → Except PError (List Str)
  | [] => .ok []
  | s :: rest =>
    if containsSub (str "FILE: ") s then
      match rest with
      | [] => .error .indexError
      | nxt :: _ => (buildFiltered rest).map (fun l => (s ++ nxt) :: l)
    else buildFiltered rest

/-- The regex search `re.search(r"FILE: (.+?)\n", section)` used by
`parse_repository_file` in `src/analyzer.py` (line 83): the first
occurrence of `"FILE: "` followed by a non-empty run of non-newline
characters and a newline.  Returns the captured filename text and the
remainder of the section after the match. -/
def fileNameMatch : Str → Option (Str × Str)
  | [] => none
  | c :: rest =>
    if (str "FILE: ").isPrefixOf (c :: rest) then
      let after := (c :: rest).drop 6
      let cap := after.takeWhile (fun x => ¬ x = '\n')
      if cap ≠ [] ∧ cap.length < after.length then
        some (cap, after.drop (cap.length + 1))
      else fileNameMatch rest
    else fileNameMatch rest

/-- Pure core of `parse_repository_file` in `src/analyzer.py`
(lines 49-103): optional `Directory structure:` preamble removal, split on
the bare 48-`=` delimiter, the pairing loop (which can raise `IndexError`),
then per-section filename extraction. -/
def parseDumpA (content : Str) : Except PError (List (Str × Str)) :=
  if content = [] then .ok []
  else
    let content1 :=
      if (str "Directory structure:").isPrefixOf content then
        match findSub (str "\n\n") content with
        | some idx => content.drop (idx + 2)
        | none => content
      else content
    match buildFiltered (splitOnSub delim48 content1) with
    | .error e => .error e
    | .ok filtered =>
      if filtered = [] then .ok []
      else .ok (filtered.foldl (fun acc section' =>
        match fileNameMatch section' with
        | some m =>
          let filename := strip m.1
          if filename = [] then acc
          else insertEntry acc filename (strip m.2)
        | none => acc) [])

/-- `parse_repository_file` of `src/analyzer.py` including the
file-existence check (line 42): a missing file is `notFound`, otherwise the
pure dump parse (which can fail with `indexError`) runs on the content. -/
def parse_repository_file_A (file : Option Str) : Except PError (List (Str × Str)) :=
  match file with
  | none => .error .notFound
  | some content => parseDumpA content

/-- `parse_repository_file` of `src/main.py` including the file-existence
check (line 55): a missing file is `notFound`, otherwise the total pure
dump parse runs on the content. -/
def parse_repository_file_M (file : Option Str) : Except PError (List (Str × Str)) :=
  match file with
  | none => .error .notFound
  | some content => .ok (parseDumpM content)

/-- Per-file block of `generate_diff_content` in `src/main.py`
(lines 133-147) as a list of emitted lines: the `--- a/` and `+++ b/`
headers, the synthetic hunk header, the `+`-prefixed content lines
(trailing CR/LF stripped), then one empty separator line. -/
def fileBlockM (p c : Str) : List Str :=
  [str "--- a/" ++ p, str "+++ b/" ++ p,
   str "@@ -0,0 +1," ++ natToStr (splitOnSub ['\n'] c).length ++ str " @@"]
  ++ (splitOnSub ['\n'] c).map (fun line => '+' :: rstripCRLF line)
  ++ [[]]

/-- `generate_diff_content` of `src/main.py` (lines 106-156): build the
`diff_parts` list file by file in mapping order and join with newlines; an
empty mapping yields the empty string. -/
def generate_diff_content_M (repository_files : List (Str × Str)) : Str :=
  if repository_files = [] then []
  else
    let diff_parts := repository_files.foldl (fun parts pc =>
      let file_lines := splitOnSub ['\n'] pc.2
      parts ++ [str "--- a/" ++ pc.1]
            ++ [str "+++ b/" ++ pc.1]
            ++ [str "@@ -0,0 +1," ++ natToStr file_lines.length ++ str " @@"]
            ++ file_lines.map (fun line => '+' :: rstripCRLF line)
            ++ [[]]) []
    joinSep ['\n'] diff_parts

/-- Model of Python's per-character `str.isprintable()` test, restricted to
ASCII: control characters (below `0x20`) and `0x7f` are not printable;
characters outside that range are treated as printable (the model does not
track the Unicode categories Python consults for non-ASCII text). -/
def charIsPrintable (c : Char) : Bool :=
  if c.toNat < 0x20 then false
  else if c.toNat = 0x7f then false
  else true

/-- Model of Python `content.isprintable()` (`True` on the empty string). -/
def strIsPrintable (s : Str) : Bool := s.all charIsPrintable

/-- The `"\n[... TRUNCATED DUE TO SIZE ...]"` marker of
`generate_diff_content` in `src/analyzer.py` (lines 137 and 155). -/
def truncMarker : Str := str "\n[... TRUNCATED DUE TO SIZE ...]"

/-- The skip test of `generate_diff_content` in `src/analyzer.py`
(line 130): `'\0' in content or not content.isprintable()`. -/
def skipBinaryA (content : Str) : Bool :=
  content.contains '\x00' || !(strIsPrintable content)

/-- The per-file truncation of `generate_diff_content` in `src/analyzer.py`
(lines 135-137): contents longer than 10,000 characters are cut to 10,000
characters and the truncation marker is appended. -/
def fileTruncA (content : Str) : Str :=
  if content.length > 10000 then content.take 10000 ++ truncMarker
  else content

/-- The final size check of `generate_diff_content` in `src/analyzer.py`
(lines 153-155): a blob longer than 100,000 characters is cut to 100,000
characters and the truncation marker is appended once. -/
def totalTruncA (d : Str) : Str :=
  if d.length > 100000 then d.take 100000 ++ truncMarker
  else d

/-- Per-file diff text emitted by `generate_diff_content` in
`src/analyzer.py` (lines 139-148) for an already-truncated content string:
`--- /dev/null`, `+++ b/<path>`, the synthetic hunk header, the
`+`-prefixed lines, and a blank separator line. -/
def fileTextA (p content : Str) : Str :=
  let file_lines := splitOnSub ['\n'] content
  str "--- /dev/null" ++ '\n' :: (str "+++ b/" ++ p) ++ '\n' ::
    (str "@@ -0,0 +1," ++ natToStr file_lines.length ++ str " @@") ++ '\n' ::
    (file_lines.flatMap (fun line => '+' :: line ++ ['\n'])) ++ ['\n']

/-- `generate_diff_content` of `src/analyzer.py` (lines 108-157): skip
binary-looking files, truncate oversized per-file contents, accumulate the
diff text, then truncate the total blob if oversized. -/
def generate_diff_content_A (repository_files : List (Str × Str)) : Str :=
  if repository_files = [] then []
  else
    let diff_content := repository_files.foldl (fun acc pc =>
      if skipBinaryA pc.2 then acc
      else acc ++ fileTextA pc.1 (fileTruncA pc.2)) []
    totalTruncA diff_content

/-- JSON whitespace characters accepted by `json.loads`. -/
def isJsonWs (c : Char) : Bool := c = ' ' ∨ c = '\t' ∨ c = '\n' ∨ c = '\r'

/-- JSON values as decoded by Python's `json.loads`: numbers are modelled
exactly as rationals; object member order and duplicates are kept as
parsed, and lookups take the last binding, as a Python dict built by the
decoder does. -/
inductive Json where
  | null
  | bool (b : Bool)
  | num (q : Rat)
  | str (s : Str)
  | arr (items : List Json)
  | obj (members : List (Str × Json))

/-- Single-character escapes of the `json.loads` string decoder. -/
def escChar (e : Char) : Option Char :=
  if e = '"' then some '"'
  else if e = '\\' then some '\\'
  else if e = '/' then some '/'
  else if e = 'b' then some '\x08'
  else if e = 'f' then some '\x0c'
  else if e = 'n' then some '\n'
  else if e = 'r' then some '\r'
  else if e = 't' then some '\t'
  else none

/-- String-body parser of the `json.loads` model (after the opening
quote): plain characters and single-character escapes; `\u` escapes are
not modelled and make the parse fail. -/
def parseJsonString : Str → Option (Str × Str)
  | [] => none
  | c :: rest =>
    if c = '"' then some ([], rest)
    else if c = '\\' then
      match rest with
      | [] => none
      | e :: rest2 =>
        match escChar e with
        | some ec => (parseJsonString rest2).map (fun q => (ec :: q.1, q.2))
        | none => none
    else (parseJsonString rest).map (fun q => (c :: q.1, q.2))

/-- Value of a decimal digit string. -/
def digitsToNat (ds : Str) : Nat := ds.foldl (fun n c => n * 10 + (c.toNat - 48)) 0

/-- The exact rational `m * 10^e` of a decimal literal with integer
mantissa `m` and signed decimal exponent `e`. -/
def decToRat (m : Int) (e : Int) : Rat :=
  if 0 ≤ e then mkRat (m * (10 : Int) ^ e.toNat) 1
  else mkRat m ((10 : Nat) ^ (-e).toNat)

/-- Exponent suffix body of the number parsers: optional sign and decimal
digits, adjusting the decimal exponent accordingly. -/
def parseExpDigits (m : Int) (e : Int) (r : Str) : Option (Rat × Str) :=
  let r1 := if r.head? = some '-' ∨ r.head? = some '+' then r.tail else r
  let ds := r1.takeWhile Char.isDigit
  if ds = [] then none
  else
    let e2 := if r.head? = some '-' then e - (digitsToNat ds : Int)
              else e + (digitsToNat ds : Int)
    some (decToRat m e2, r1.drop ds.length)

/-- Optional `e`/`E` exponent of the JSON number grammar. -/
def parseJsonExp (m : Int) (e : Int) (s : Str) : Option (Rat × Str) :=
  match s with
  | 'e' :: r => parseExpDigits m e r
  | 'E' :: r => parseExpDigits m e r
  | _ => some (decToRat m e, s)

/-- Number parser of the `json.loads` model: optional minus, integer part
without leading zeros, optional fraction, optional exponent; the value is
returned exactly as a rational. -/
def parseJsonNumber (s : Str) : Option (Rat × Str) :=
  let s1 := if s.head? = some '-' then s.tail else s
  let ip := s1.takeWhile Char.isDigit
  if ip = [] then none
  else if 1 < ip.length ∧ ip.head? = some '0' then none
  else
    let s2 := s1.drop ip.length
    match s2 with
    | '.' :: r =>
      let fp := r.takeWhile Char.isDigit
      if fp = [] then none
      else
        let m : Int := (digitsToNat (ip ++ fp) : Int)
        parseJsonExp (if s.head? = some '-' then -m else m)
          (-(fp.length : Int)) (r.drop fp.length)
    | _ =>
      let m : Int := (digitsToNat ip : Int)
      parseJsonExp (if s.head? = some '-' then -m else m) 0 s2

mutual
/-- Value parser of the `json.loads` model; the fuel argument only bounds
recursion depth and the wrapper supplies more than enough of it. -/
def parseValue : Nat → Str → Option (Json × Str)
  | 0, _ => none
  | fuel + 1, s =>
    let s1 := s.dropWhile isJsonWs
    match s1 with
    | 'n' :: 'u' :: 'l' :: 'l' :: r => some (.null, r)
    | 't' :: 'r' :: 'u' :: 'e' :: r => some (.bool true, r)
    | 'f' :: 'a' :: 'l' :: 's' :: 'e' :: r => some (.bool false, r)
    | '"' :: r => (parseJsonString r).map (fun q => (.str q.1, q.2))
    | '[' :: r =>
      match r.dropWhile isJsonWs with
      | ']' :: r2 => some (.arr [], r2)
      | _ => (parseItems fuel r).map (fun q => (.arr q.1, q.2))
    | '\x7b' :: r =>
      match r.dropWhile isJsonWs with
      | '\x7d' :: r2 => some (.obj [], r2)
      | _ => (parseMembers fuel r).map (fun q => (.obj q.1, q.2))
    | _ => (parseJsonNumber s1).map (fun q => (.num q.1, q.2))

/-- Array items of the `json.loads` model (after `[`). -/
def parseItems : Nat → Str → Option (List Json × Str)
  | 0, _ => none
  | fuel + 1, s =>
    match parseValue fuel s with
    | none => none
    | some (v, r) =>
      match r.dropWhile isJsonWs with
      | ',' :: r2 => (parseItems fuel r2).map (fun q => (v :: q.1, q.2))
      | ']' :: r2 => some ([v], r2)
      | _ => none

/-- Object members of the `json.loads` model (after the opening brace). -/
def parseMembers : Nat → Str → Option (List (Str × Json) × Str)
  | 0, _ => none
  | fuel + 1, s =>
    match s.dropWhile isJsonWs with
    | '"' :: r =>
      match parseJsonString r with
      | none => none
      | some (k, r1) =>
        match r1.dropWhile isJsonWs with
        | ':' :: r2 =>
          match parseValue fuel r2 with
          | none => none
          | some (v, r3) =>
            match r3.dropWhile isJsonWs with
            | ',' :: r4 => (parseMembers fuel r4).map (fun q => ((k, v) :: q.1, q.2))
            | '\x7d' :: r4 => some ([(k, v)], r4)
            | _ => none
        | _ => none
    | _ => none
end

/-- Model of Python `json.loads`: parse one value and require only
whitespace after it. -/
def jsonParse (s : Str) : Option Json :=
  match parseValue (2 * s.length + 2) s with
  | some (j, rest) => if rest.dropWhile isJsonWs = [] then some j else none
  | none => none

/-- Python `dict.get` on a decoded JSON object: the last binding for the
key (duplicate keys in the source overwrite earlier ones), or `none`. -/
def jGet (j : Json) (key : Str) : Option Json :=
  match j with
  | .obj members =>
    ((members.filter (fun kv => decide (kv.1 = key))).getLast?).map Prod.snd
  | _ => none

/-- The list coercion of `_parse_analysis_response` in
`src/app/modules/analyzer.py`: `.get(key, [])` (line 357) combined with
the `isinstance(..., list)` reset loop (lines 369-372). -/
def coerceList (v : Option Json) : List Json :=
  match v with
  | some (.arr items) => items
  | _ => []

/-- Trailing-exponent handling of the Python `float(str)` model. -/
def finishFloatExp (m : Int) (e : Int) (r : Str) : Option Rat :=
  let r1 := if r.head? = some '-' ∨ r.head? = some '+' then r.tail else r
  let ds := r1.takeWhile Char.isDigit
  if ds = [] then none
  else if ¬ r1.drop ds.length = [] then none
  else some (decToRat m (if r.head? = some '-' then e - (digitsToNat ds : Int)
                         else e + (digitsToNat ds : Int)))

/-- Tail of the Python `float(str)` model after the mantissa: the end of
input or an exponent consuming the rest. -/
def finishFloat (m : Int) (e : Int) (rest : Str) : Option Rat :=
  match rest with
  | [] => some (decToRat m e)
  | 'e' :: r => finishFloatExp m e r
  | 'E' :: r => finishFloatExp m e r
  | _ => none

/-- Model of Python `float(str)`: strip whitespace, optional sign, decimal
digits with optional fraction and exponent, exact as a rational; `inf`,
`nan` and underscore separators are not modelled (they yield `none`). -/
def strToFloat (s0 : Str) : Option Rat :=
  let s := strip s0
  let s1 := if s.head? = some '-' ∨ s.head? = some '+' then s.tail else s
  let ip := s1.takeWhile Char.isDigit
  let s2 := s1.drop ip.length
  match s2 with
  | '.' :: r =>
    let fp := r.takeWhile Char.isDigit
    if ip = [] ∧ fp = [] then none
    else
      let m : Int := (digitsToNat (ip ++ fp) : Int)
      finishFloat (if s.head? = some '-' then -m else m)
        (-(fp.length : Int)) (r.drop fp.length)
  | _ =>
    if ip = [] then none
    else
      let m : Int := (digitsToNat ip : Int)
      finishFloat (if s.head? = some '-' then -m else m) 0 s2

/-- The score coercion of `_parse_analysis_response` (lines 361-368 of
`src/app/modules/analyzer.py`): `None` stays for an absent or null score,
otherwise Python `float(...)` — exact for numbers, `1.0`/`0.0` for
booleans, string parsing for strings, `None` on conversion failure. -/
def coerceScore (v : Option Json) : Option Rat :=
  match v with
  | none => none
  | some .null => none
  | some (.num q) => some q
  | some (.bool b) => some (if b then 1 else 0)
  | some (.str s) => strToFloat s
  | some (.arr _) => none
  | some (.obj _) => none

/-- The fence-stripping step of `_parse_analysis_response` in
`src/app/modules/analyzer.py` (lines 327-332): strip, drop a leading
```` ```json ```` and a trailing ```` ``` ```` when present, strip again. -/
def cleanMessage (message : Str) : Str :=
  let c := strip message
  if (str "```json").isPrefixOf c then
    let c1 := c.drop 7
    let c2 := if (str "```").isSuffixOf c1 then c1.take (c1.length - 3) else c1
    strip c2
  else c

/-- The lazy group of the fenced-block regex of line 344: everything up to
the first closing brace that is followed by optional whitespace and a
closing fence. -/
def lazyCloseBrace : Str → Option Str
  | [] => none
  | c :: rest =>
    if c = '\x7d' ∧ (str "```").isPrefixOf (rest.dropWhile isPyWs) then
      some [c]
    else (lazyCloseBrace rest).map (fun t => c :: t)

/-- One anchored attempt of the fenced-block regex
 `` ```json\s*(\{.*?\})\s*``` `` (line 344 of
`src/app/modules/analyzer.py`). -/
def fencedAt (s : Str) : Option Str :=
  if (str "```json").isPrefixOf s then
    let r1 := (s.drop 7).dropWhile isPyWs
    if r1.head? = some '\x7b' then lazyCloseBrace r1 else none
  else none

/-- The regex search for an embedded fenced JSON block anywhere in the
message (tier 2 of the normalizer): first position whose anchored attempt
matches. -/
def findFencedBlock : Str → Option Str
  | [] => none
  | c :: rest =>
    match fencedAt (c :: rest) with
    | some g => some g
    | none => findFencedBlock rest

/-- Tiers 1-2 of `_parse_analysis_response` (lines 325-354): direct JSON
parse of the cleaned message when it is brace-delimited, otherwise one
parse attempt on the first embedded fenced block (no retry on a failed
block, matching the source). -/
def extractJson (message : Str) : Option Json :=
  let cleaned := cleanMessage message
  let tier1 :=
    if (['\x7b'] : Str).isPrefixOf cleaned ∧ (['\x7d'] : Str).isSuffixOf cleaned then
      jsonParse cleaned
    else none
  match tier1 with
  | some j => some j
  | none => (findFencedBlock message).bind jsonParse

/-- Case-insensitive prefix test (`re.IGNORECASE` restricted to ASCII
letters, which is all the patterns contain). -/
def ciPfx (pat s : Str) : Bool :=
  decide ((s.take pat.length).map Char.toLower = pat)

/-- Index of the last newline in a string, if any. -/
def lastNewlinePos : Str → Option Nat
  | [] => none
  | c :: rest =>
    match lastNewlinePos rest with
    | some i => some (i + 1)
    | none => if c = '\n' then some 0 else none

/-- The `\s*\n` tail of the header patterns: consume the maximal
whitespace run up to and including its last newline; fail when the run
holds no newline. -/
def consumeWsNewline (s : Str) : Option Str :=
  match lastNewlinePos (s.takeWhile isPyWs) with
  | some i => some (s.drop (i + 1))
  | none => none

/-- One anchored attempt of a numbered-section header pattern
`d\.\s*<title>:?\s*\n` (DOTALL and IGNORECASE), returning the remainder
after the matched header. -/
def matchHeaderAt (d : Char) (title : Str) (s : Str) : Option Str :=
  match s with
  | c1 :: '.' :: rest =>
    if c1 = d then
      let r1 := rest.dropWhile isPyWs
      if ciPfx title r1 then
        let r2 := r1.drop title.length
        let r3 := if r2.head? = some ':' then r2.tail else r2
        consumeWsNewline r3
      else none
    else none
  | _ => none

/-- The lookahead `\n\s*<d>\.` ending a captured section. -/
def lookAheadNum (d : Char) (s : Str) : Bool :=
  match s with
  | '\n' :: r =>
    match r.dropWhile isPyWs with
    | a :: '.' :: _ => a == d
    | _ => false
  | _ => false

/-- Lazy capture: the shortest prefix whose continuation satisfies the
stop test (the whole string when no position does). -/
def captureUntil (stop : Str → Bool) : Str → Str
  | [] => []
  | c :: rest => if stop (c :: rest) then [] else c :: captureUntil stop rest

/-- The regex search for one numbered prose section (patterns of lines 377
and 384 of `src/app/modules/analyzer.py`): first header match, then lazy
capture up to the next-section lookahead or the end of the text. -/
def searchSection (d dNext : Char) (title : Str) : Str → Option Str
  | [] => none
  | c :: rest =>
    match matchHeaderAt d title (c :: rest) with
    | some r => some (captureUntil (lookAheadNum dNext) r)
    | none => searchSection d dNext title rest

/-- One anchored attempt of the score-pattern header
`3\.\s*Overall quality score:?` of line 391. -/
def matchScoreHeaderAt (s : Str) : Option Str :=
  match s with
  | '3' :: '.' :: rest =>
    let r1 := rest.dropWhile isPyWs
    if ciPfx (str "overall quality score") r1 then
      let r2 := r1.drop 21
      some (if r2.head? = some ':' then r2.tail else r2)
    else none
  | _ => none

/-- Maximal-munch match of `\d+(?:\.\d+)?` at the head of the string,
returning the matched literal and the remainder. -/
def numberAt (s : Str) : Option (Str × Str) :=
  let ds := s.takeWhile Char.isDigit
  if ds = [] then none
  else
    match s.drop ds.length with
    | '.' :: r2 =>
      let fs := r2.takeWhile Char.isDigit
      if fs = [] then some (ds, s.drop ds.length)
      else some (ds ++ '.' :: fs, r2.drop fs.length)
    | r => some (ds, r)

/-- The `\s*(?:/|out of)\s*10` suffix of the score pattern (the slash or a
case-insensitive `out of`, then the digits `10`). -/
def slash10After (s : Str) : Bool :=
  let r := s.dropWhile isPyWs
  match
    (if r.head? = some '/' then some r.tail
     else if ciPfx (str "out of") r then some (r.drop 6)
     else none) with
  | some r3 => (str "10").isPrefixOf (r3.dropWhile isPyWs)
  | none => false

/-- The lazy `.*?` scan of the score pattern: the first number literal
followed by the `/10` suffix. -/
def findScoreNum : Str → Option Str
  | [] => none
  | c :: rest =>
    match numberAt (c :: rest) with
    | some m => if slash10After m.2 then some m.1 else findScoreNum rest
    | none => findScoreNum rest

/-- The regex search of line 391 of `src/app/modules/analyzer.py`: the
first position where the score header matches and some later number
carries the `/10` suffix. -/
def searchScore : Str → Option Str
  | [] => none
  | c :: rest =>
    match matchScoreHeaderAt (c :: rest) with
    | some r =>
      match findScoreNum r with
      | some lit => some lit
      | none => searchScore rest
    | none => searchScore rest

/-- One line of the bullet-item pattern `^\s*[-•*]\s+(.*)` (line 380):
leading whitespace, a bullet character, at least one whitespace character,
then the captured remainder of the line. -/
def bulletItem (line : Str) : Option Str :=
  match line.dropWhile isPyWs with
  | c :: rest =>
    if c = '-' ∨ c = '•' ∨ c = '*' then
      match rest with
      | w :: _ => if isPyWs w then some (rest.dropWhile isPyWs) else none
      | [] => none
    else none
  | [] => none

/-- One line of the numbered-item pattern `^\s*\d+\.\s+(.*)` (line 381). -/
def numberItem (line : Str) : Option Str :=
  let l := line.dropWhile isPyWs
  let ds := l.takeWhile Char.isDigit
  if ds = [] then none
  else
    match l.drop ds.length with
    | '.' :: r =>
      match r with
      | w :: _ => if isPyWs w then some (r.dropWhile isPyWs) else none
      | [] => none
    | _ => none

/-- Item extraction of the regex fallback (lines 380-382 and 387-389):
bullet-prefixed lines, else number-prefixed lines, each stripped and
dropped when empty. -/
def itemsOf (t : Str) : List Str :=
  let bullets := (splitOnSub ['\n'] t).filterMap bulletItem
  let raw := if bullets = [] then (splitOnSub ['\n'] t).filterMap numberItem
             else bullets
  (raw.map strip).filter (fun i => !i.isEmpty)

/-- The analysis dictionary built by `_parse_analysis_response` of
`src/app/modules/analyzer.py`: the four lists (JSON values as decoded, or
regex-extracted strings wrapped as JSON strings), the optional score, the
raw response text, and the optional error. -/
structure AnalysisResult where
  quality_issues : List Json
  good_practices : List Json
  patterns : List Json
  anti_patterns : List Json
  overall_score : Option Rat
  raw_response : Str
  error : Option Str

/-- Model of the Model Client's reply consumed by
`_parse_analysis_response`: an error marker, or the ordered alternatives'
text payloads. -/
inductive ApiResponse where
  | error (msg : Str)
  | result (alternatives : List Str)

/-- `_parse_analysis_response` of `src/app/modules/analyzer.py`
(lines 278-401): error short-circuit, empty-alternatives error, tiers 1-2
JSON extraction with the field coercions, and the tier-3 regex fallback
that leaves `patterns` and `anti_patterns` empty. -/
def parseAnalysisResponse (response : ApiResponse) : AnalysisResult :=
  match response with
  | .error e =>
    { quality_issues := [], good_practices := [], patterns := [],
      anti_patterns := [], overall_score := none,
      raw_response := str "API Error: " ++ e,
      error := some (str "API Error: " ++ e) }
  | .result [] =>
    { quality_issues := [], good_practices := [], patterns := [],
      anti_patterns := [], overall_score := none,
      raw_response := str "API response contained no alternatives.",
      error := some (str "API response contained no alternatives.") }
  | .result (message :: _) =>
    match extractJson message with
    | some j =>
      { quality_issues := coerceList (jGet j (str "quality_issues")),
        good_practices := coerceList (jGet j (str "good_practices")),
        patterns := coerceList (jGet j (str "patterns")),
        anti_patterns := coerceList (jGet j (str "anti_patterns")),
        overall_score := coerceScore (jGet j (str "overall_score")),
        raw_response := message,
        error := none }
    | none =>
      { quality_issues :=
          (match searchSection '1' '2' (str "code quality issues") message with
           | some t => itemsOf (strip t)
           | none => []).map Json.str,
        good_practices :=
          (match searchSection '2' '3' (str "good practices") message with
           | some t => itemsOf (strip t)
           | none => []).map Json.str,
        patterns := [],
        anti_patterns := [],
        overall_score :=
          (match searchScore message with
           | some lit => strToFloat lit
           | none => none),
        raw_response := message,
        error := none }

/-- Concrete fenced-JSON model reply (the spec's end-to-end scenario 2),
used by witnesses. -/
def exampleJsonReply : Str :=
  str "```json\n\x7b\"quality_issues\": [\"X\"], \"good_practices\": [], \"patterns\": [], \"anti_patterns\": [], \"overall_score\": 7.5\x7d\n```"

/-- The object decoded from `exampleJsonReply`. -/
def exampleJsonObj : Json :=
  Json.obj [(str "quality_issues", Json.arr [Json.str (str "X")]),
    (str "good_practices", Json.arr []),
    (str "patterns", Json.arr []),
    (str "anti_patterns", Json.arr []),
    (str "overall_score", Json.num (mkRat 15 2))]

/-- Concrete numbered-prose model reply with no JSON, used by witnesses. -/
def exampleProseReply : Str :=
  str "1. Code quality issues:\n- Magic numbers in foo.py\n- Long function\n\n2. Good practices:\n- Uses context manager\n\n3. Overall quality score: 7.5/10\nGood work."

/-- Concrete prose reply with neither JSON nor numbered sections. -/
def examplePlainReply : Str := str "The code looks fine overall."

/-- A model reply whose JSON object reports a score outside `[0, 10]`. -/
def exampleBigScoreReply : Str := str "\x7b\"overall_score\": 15\x7d"

/-- One dump section in the canonical delimiter format: the `FILE: <path>`
marker line followed by the file content. -/
def sectionOf (pc : Str × Str) : Str := str "FILE: " ++ pc.1 ++ '\n' :: pc.2

/-- Modelled from the spec: no serializer exists under `src/`; the spec's
round-trip property postulates one emitting the canonical delimiter format
("sections separated by a line of repeated `=` characters; each section
begins with `FILE: <relative-path>` followed by file content up to the
next delimiter").  Sections are joined by the newline-wrapped 48-`=`
delimiter line. -/
def serializeDump (files : List (Str × Str)) : Str :=
  joinSep sepM (files.map sectionOf)

/-- No occurrence of `sep` starts strictly inside `s` when `sep` directly
follows `s` (the condition under which Python's split recovers `s` as one
piece of `s ++ sep ++ …`). -/
def noMidOccB (sep s : Str) : Bool :=
  (List.range s.length).all (fun i => !(sep.isPrefixOf ((s ++ sep).drop i)))

/-- Accumulating a list per element with `++` inside a `foldl`, keeping
only elements satisfying `p`, is filtering followed by `flatMap`. -/
theorem foldl_filter_append {α β : Type} (p : α → Bool) (f : α → List β) :
    ∀ (l : List α) (acc : List β),
      l.foldl (fun a x => if p x then a ++ f x else a) acc =
        acc ++ (l.filter p).flatMap f := by
  intro l
  induction l with
  | nil => intro acc; simp
  | cons x xs ih =>
    intro acc
    by_cases hx : p x
    · simp only [List.foldl_cons, if_pos hx, ih, List.filter_cons, hx,
        ite_true, List.flatMap_cons, List.append_assoc]
    · rw [List.foldl_cons, if_neg hx, ih, List.filter_cons]
      simp [hx]

/-- Accumulating a list per element with `++` inside a `foldl` is a
`flatMap`. -/
theorem foldl_append_flatMap {α β : Type} (f : α → List β) :
    ∀ (l : List α) (acc : List β),
      l.foldl (fun a x => a ++ f x) acc = acc ++ l.flatMap f := by
  intro l
  induction l with
  | nil => intro acc; simp
  | cons x xs ih => intro acc; simp [ih]

/-- When the separator never occurs in the input, `splitGo` (with adequate
fuel) returns the input as the only piece. -/
theorem splitGo_eq_single (sep : Str) :
    ∀ (s : Str) (n : Nat), s.length ≤ n →
      (∀ i, sep.isPrefixOf (s.drop i) = false) →
      splitGo sep n s = [s] := by
  intro s
  induction s with
  | nil => intro n _ _; cases n <;> rfl
  | cons c rest ih =>
    intro n hn hocc
    cases n with
    | zero => simp at hn
    | succ m =>
      have h0 : sep.isPrefixOf (c :: rest) = false := by
        have := hocc 0
        simpa using this
      have hrest : ∀ i, sep.isPrefixOf (rest.drop i) = false := by
        intro i
        have := hocc (i + 1)
        simpa using this
      have hr : splitGo sep m rest = [rest] := by
        apply ih m (by simpa using Nat.lt_succ_iff.mp (Nat.lt_of_lt_of_le (Nat.lt_succ_self _) (by simpa using hn))) hrest
      simp [splitGo, h0, hr]

/-- C6 (code bug): the claim says the repository-dump parser never fails on
malformed content, but `parse_repository_file` in `src/analyzer.py` raises
`IndexError` on the dump `"FILE: a.py\nprint(1)"` (its pairing loop reads
`file_sections[i+1]` when the last delimiter-separated section contains
`"FILE: "`), while the reimplementation in `src/main.py` parses the same
input tolerantly and fails only with `NotFound` on a missing file. -/
theorem c6_dump_parser_crash :
    parse_repository_file_A (some (str "FILE: a.py\nprint(1)")) = .error .indexError ∧
    parse_repository_file_M (some (str "FILE: a.py\nprint(1)")) =
      .ok [(str "a.py", str "print(1)")] ∧
    parse_repository_file_A none = .error .notFound ∧
    parse_repository_file_M none = .error .notFound ∧
    parseDumpM [] = [] ∧
    parseDumpM (str "plain prose with no markers") = [] := by
  refine ⟨by decide, by decide, rfl, rfl, rfl, by decide⟩

/-- C8: for a non-empty mapping, `generate_diff_content` of `src/main.py`
emits, per file and in mapping order, the `--- a/<path>` and `+++ b/<path>`
headers, the hunk header `@@ -0,0 +1,N @@` with `N` the number of
newline-separated lines of the content, and every content line prefixed
with `+` after stripping trailing CR/LF, all joined by newlines. -/
theorem c8_diff_structure (files : List (Str × Str)) (h : files ≠ []) :
    generate_diff_content_M files =
      joinSep ['\n'] (files.flatMap (fun pc => fileBlockM pc.1 pc.2)) := by
  unfold generate_diff_content_M
  rw [if_neg h]
  have hbody : (fun (parts : List Str) (pc : Str × Str) =>
      parts ++ [str "--- a/" ++ pc.1]
            ++ [str "+++ b/" ++ pc.1]
            ++ [str "@@ -0,0 +1," ++ natToStr (splitOnSub ['\n'] pc.2).length ++ str " @@"]
            ++ (splitOnSub ['\n'] pc.2).map (fun line => '+' :: rstripCRLF line)
            ++ [[]]) =
      (fun (parts : List Str) (pc : Str × Str) => parts ++ fileBlockM pc.1 pc.2) := by
    funext parts pc
    simp [fileBlockM]
  simp only [hbody, foldl_append_flatMap, List.nil_append]

/-- C8 witness: the two-file dump of the spec's end-to-end scenario 1
produces exactly the expected synthetic diff. -/
theorem c8_diff_structure_witness :
    generate_diff_content_M [(str "a.py", str "print(1)"), (str "b.py", str "print(2)")] =
      str "--- a/a.py\n+++ b/a.py\n@@ -0,0 +1,1 @@\n+print(1)\n\n--- a/b.py\n+++ b/b.py\n@@ -0,0 +1,1 @@\n+print(2)\n" :=
  (c8_diff_structure [(str "a.py", str "print(1)"), (str "b.py", str "print(2)")]
    (by decide)).trans (by decide)

/-- C9: `generate_diff_content` of `src/analyzer.py` equals the total-size
truncation applied to the concatenated per-file diff texts of the
non-skipped files, where per-file contents longer than 10,000 characters
are cut to 10,000 characters with the truncation marker appended, and a
total blob longer than 100,000 characters is cut to 100,000 characters
with the same marker appended once. -/
theorem c9_truncation (files : List (Str × Str)) :
    generate_diff_content_A files =
      totalTruncA ((files.filter (fun pc => !skipBinaryA pc.2)).flatMap
        (fun pc => fileTextA pc.1 (fileTruncA pc.2))) ∧
    (∀ c : Str, c.length > 10000 →
      fileTruncA c = c.take 10000 ++ truncMarker) ∧
    (∀ d : Str, d.length > 100000 →
      totalTruncA d = d.take 100000 ++ truncMarker) := by
  refine ⟨?_, ?_, ?_⟩
  · unfold generate_diff_content_A
    by_cases hf : files = []
    · subst hf
      simp [totalTruncA]
    · rw [if_neg hf]
      have hbody : (fun (acc : Str) (pc : Str × Str) =>
          if skipBinaryA pc.2 then acc
          else acc ++ fileTextA pc.1 (fileTruncA pc.2)) =
          (fun (acc : Str) (pc : Str × Str) =>
            if !skipBinaryA pc.2 then acc ++ fileTextA pc.1 (fileTruncA pc.2)
            else acc) := by
        funext acc pc
        by_cases hs : skipBinaryA pc.2 <;> simp [hs]
      rw [hbody, foldl_filter_append]
      simp
  · intro c hc
    simp [fileTruncA, hc]
  · intro d hd
    simp [totalTruncA, hd]

/-- C9 witness: a 10,001-character file content is truncated with the
marker, and a small concrete dump goes through the factored form. -/
theorem c9_truncation_witness :
    fileTruncA (List.replicate 10001 'x') =
      (List.replicate 10001 'x').take 10000 ++ truncMarker ∧
    generate_diff_content_A [(str "a.py", str "print(1)")] =
      totalTruncA (([(str "a.py", str "print(1)")].filter
          (fun pc => !skipBinaryA pc.2)).flatMap
        (fun pc => fileTextA pc.1 (fileTruncA pc.2))) :=
  ⟨(c9_truncation []).2.1 (List.replicate 10001 'x')
      (by rw [List.length_replicate]; omega),
   (c9_truncation [(str "a.py", str "print(1)")]).1⟩

/-- C10: in the binary-skipping diff variant (`generate_diff_content` of
`src/analyzer.py`), skipped files contribute nothing — the output equals
the output on the mapping restricted to files that contain no NUL byte and
pass the printable-text check; any content containing a newline (or tab)
fails that check, so only single-line, fully printable files are ever
emitted. -/
theorem c10_binary_skip (files : List (Str × Str)) :
    generate_diff_content_A files =
      generate_diff_content_A (files.filter (fun pc => !skipBinaryA pc.2)) ∧
    (∀ c : Str, '\n' ∈ c → skipBinaryA c = true) ∧
    (∀ c : Str, '\t' ∈ c → skipBinaryA c = true) ∧
    (∀ c : Str, strIsPrintable c = true → splitOnSub ['\n'] c = [c]) := by
  have hnp : ∀ (c : Str) (x : Char), x ∈ c → charIsPrintable x = false →
      skipBinaryA c = true := by
    intro c x hx hpx
    have hall : strIsPrintable c = false := by
      rw [strIsPrintable]
      by_contra hT
      have : c.all charIsPrintable = true := by
        cases hb : c.all charIsPrintable
        · exact absurd hb hT
        · rfl
      rw [List.all_eq_true] at this
      have := this x hx
      rw [hpx] at this
      exact Bool.noConfusion this
    simp [skipBinaryA, hall]
  refine ⟨?_, ?_, ?_, ?_⟩
  · unfold generate_diff_content_A
    have hbody : (fun (acc : Str) (pc : Str × Str) =>
        if skipBinaryA pc.2 then acc
        else acc ++ fileTextA pc.1 (fileTruncA pc.2)) =
        (fun (acc : Str) (pc : Str × Str) =>
          if !skipBinaryA pc.2 then acc ++ fileTextA pc.1 (fileTruncA pc.2)
          else acc) := by
      funext acc pc
      by_cases hs : skipBinaryA pc.2 <;> simp [hs]
    by_cases hf : files = []
    · subst hf; rfl
    · rw [if_neg hf]
      by_cases hff : files.filter (fun pc => !skipBinaryA pc.2) = []
      · rw [hff]
        rw [hbody, foldl_filter_append, hff]
        simp [totalTruncA]
      · rw [if_neg hff]
        rw [hbody, foldl_filter_append, foldl_filter_append]
        simp [List.filter_filter]
  · intro c hc
    exact hnp c '\n' hc (by decide)
  · intro c hc
    exact hnp c '\t' hc (by decide)
  · intro c hc
    have hnl : ∀ i, (['\n'] : Str).isPrefixOf (c.drop i) = false := by
      intro i
      cases hd : c.drop i with
      | nil => rfl
      | cons x xs =>
        have hx : x ∈ c := by
          have : x ∈ c.drop i := by rw [hd]; exact List.mem_cons_self x xs
          exact List.mem_of_mem_drop this
        have hpx : charIsPrintable x = true := by
          rw [strIsPrintable, List.all_eq_true] at hc
          exact hc x hx
        have hxn : ¬ '\n' = x := by
          intro hEq
          rw [← hEq] at hpx
          exact Bool.noConfusion hpx
        simp [List.isPrefixOf, hxn]
    exact splitGo_eq_single ['\n'] c c.length (Nat.le_refl _) hnl

/-- C10 witness: a two-line file is omitted entirely while a single-line
file is kept. -/
theorem c10_binary_skip_witness :
    generate_diff_content_A
        [(str "a.py", str "print(1)"), (str "b.py", str "line1\nline2")] =
      generate_diff_content_A
        (([(str "a.py", str "print(1)"), (str "b.py", str "line1\nline2")]).filter
          (fun pc => !skipBinaryA pc.2)) ∧
    skipBinaryA (str "line1\nline2") = true :=
  ⟨(c10_binary_skip
      [(str "a.py", str "print(1)"), (str "b.py", str "line1\nline2")]).1,
   (c10_binary_skip []).2.1 (str "line1\nline2") (by decide)⟩

/-- A prefix test that fails on `a` also fails on `a ++ b` when the pattern
fits inside `a`. -/
theorem isPrefixOf_append_false {p a b : Str} (hlen : p.length ≤ a.length)
    (h : p.isPrefixOf a = false) : p.isPrefixOf (a ++ b) = false := by
  cases hab : p.isPrefixOf (a ++ b) with
  | false => rfl
  | true =>
    exfalso
    have hpre : p <+: a ++ b := List.isPrefixOf_iff_prefix.mp hab
    have htake : p = List.take p.length (a ++ b) := List.prefix_iff_eq_take.mp hpre
    have htake2 : List.take p.length (a ++ b) = List.take p.length a := by
      rw [List.take_append_eq_append_take, Nat.sub_eq_zero_of_le hlen,
        List.take_zero, List.append_nil]
    have hpa : p <+: a := by
      rw [htake, htake2]
      exact List.take_prefix _ _
    rw [List.isPrefixOf_iff_prefix.mpr hpa] at h
    exact Bool.noConfusion h

/-- A prefix test that succeeds on `a` also succeeds on `a ++ b`. -/
theorem isPrefixOf_append_true {p a : Str} (b : Str)
    (h : p.isPrefixOf a = true) : p.isPrefixOf (a ++ b) = true :=
  List.isPrefixOf_iff_prefix.mpr
    ((List.isPrefixOf_iff_prefix.mp h).trans (List.prefix_append a b))

/-- `noMidOccB` transfers from `c :: s` to `s`. -/
theorem noMid_tail {sep : Str} {c : Char} {s : Str}
    (h : noMidOccB sep (c :: s) = true) : noMidOccB sep s = true := by
  rw [noMidOccB, List.all_eq_true] at h ⊢
  intro i hi
  rw [List.mem_range] at hi
  have := h (i + 1) (by rw [List.mem_range]; simpa using Nat.succ_lt_succ hi)
  simpa using this

/-- `noMidOccB sep s` rules out every occurrence of `sep` inside `s`. -/
theorem noMid_no_occ {sep s : Str} (hsep : sep ≠ [])
    (h : noMidOccB sep s = true) :
    ∀ i, sep.isPrefixOf (s.drop i) = false := by
  intro i
  by_cases hi : i < s.length
  · rw [noMidOccB, List.all_eq_true] at h
    have hmid := h i (List.mem_range.mpr hi)
    simp only [Bool.not_eq_true'] at hmid
    cases hocc : sep.isPrefixOf (s.drop i) with
    | false => rfl
    | true =>
      exfalso
      have : sep.isPrefixOf ((s ++ sep).drop i) = true := by
        rw [List.drop_append_eq_append_drop, Nat.sub_eq_zero_of_le (Nat.le_of_lt hi),
          List.drop_zero]
        exact isPrefixOf_append_true sep hocc
      rw [this] at hmid
      exact Bool.noConfusion hmid
  · have hnil : s.drop i = [] := List.drop_eq_nil_of_le (Nat.le_of_not_lt hi)
    rw [hnil]
    cases hs : sep with
    | nil => exact absurd hs hsep
    | cons a l => rfl

/-- Fuel does not matter for `splitGo` once it is at least the input
length. -/
theorem splitGo_fuel (sep : Str) (hsep : sep ≠ []) :
    ∀ (n : Nat) (s : Str) (m : Nat), s.length ≤ n → s.length ≤ m →
      splitGo sep n s = splitGo sep m s := by
  have h1 : 1 ≤ sep.length := by
    cases hs : sep with
    | nil => exact absurd hs hsep
    | cons a l => simp
  intro n
  induction n with
  | zero =>
    intro s m hn _
    have : s = [] := List.eq_nil_of_length_eq_zero (Nat.le_zero.mp hn)
    subst this
    cases m <;> rfl
  | succ n' ih =>
    intro s m hn hm
    cases s with
    | nil => cases m <;> rfl
    | cons c rest =>
      cases m with
      | zero => simp at hm
      | succ m' =>
        by_cases hp : sep.isPrefixOf (c :: rest) = true
        · have hd : ((c :: rest).drop sep.length).length ≤ n' := by
            simp only [List.length_drop, List.length_cons]
            simp only [List.length_cons] at hn
            omega
          have hd2 : ((c :: rest).drop sep.length).length ≤ m' := by
            simp only [List.length_drop, List.length_cons]
            simp only [List.length_cons] at hm
            omega
          simp [splitGo, hp, ih _ m' hd hd2]
        · have hb : rest.length ≤ n' := by
            simp only [List.length_cons] at hn
            omega
          have hb2 : rest.length ≤ m' := by
            simp only [List.length_cons] at hm
            omega
          simp [splitGo, hp, ih _ m' hb hb2]

/-- Splitting `s ++ sep ++ t` recovers `s` as the first piece when no
occurrence of `sep` starts inside `s`. -/
theorem splitGo_append_sep (sep : Str) (hsep : sep ≠ []) :
    ∀ (s t : Str) (n : Nat), (s ++ sep ++ t).length ≤ n →
      noMidOccB sep s = true →
      splitGo sep n (s ++ sep ++ t) = s :: splitGo sep t.length t := by
  have h1 : 1 ≤ sep.length := by
    cases hs : sep with
    | nil => exact absurd hs hsep
    | cons a l => simp
  intro s
  induction s with
  | nil =>
    intro t n hn _
    simp only [List.nil_append] at hn ⊢
    cases hsp : sep ++ t with
    | nil =>
      exfalso
      have := List.append_eq_nil.mp hsp
      exact hsep this.1
    | cons c rest =>
      cases n with
      | zero =>
        exfalso
        rw [hsp] at hn
        simp at hn
      | succ n' =>
        rw [← hsp]
        have hp : sep.isPrefixOf (sep ++ t) = true :=
          List.isPrefixOf_iff_prefix.mpr (List.prefix_append sep t)
        have hstep : splitGo sep (n' + 1) (sep ++ t) =
            [] :: splitGo sep n' ((sep ++ t).drop sep.length) := by
          rw [hsp] at hp ⊢
          simp [splitGo, hp]
        rw [hstep, List.drop_left]
        have hlen : t.length ≤ n' := by
          rw [List.length_append] at hn
          omega
        rw [splitGo_fuel sep hsep n' t t.length hlen (Nat.le_refl _)]
  | cons c s' ih =>
    intro t n hn hmid
    cases n with
    | zero => simp at hn
    | succ n' =>
      have hp0 : sep.isPrefixOf (c :: (s' ++ sep)) = false := by
        rw [noMidOccB, List.all_eq_true] at hmid
        have := hmid 0 (List.mem_range.mpr (by simp))
        simpa using this
      have hpfull : sep.isPrefixOf (c :: (s' ++ sep ++ t)) = false := by
        have hx : c :: (s' ++ sep ++ t) = (c :: (s' ++ sep)) ++ t := rfl
        rw [hx]
        apply isPrefixOf_append_false _ hp0
        simp only [List.length_cons, List.length_append]
        omega
      have hrec : splitGo sep n' (s' ++ sep ++ t) =
          s' :: splitGo sep t.length t := by
        apply ih t n' _ (noMid_tail hmid)
        simp only [List.length_append, List.length_cons] at hn ⊢
        omega
      show splitGo sep (n' + 1) (c :: (s' ++ sep ++ t)) =
        (c :: s') :: splitGo sep t.length t
      simp only [splitGo]
      rw [if_neg (by rw [hpfull]; exact Bool.false_ne_true)]
      rw [hrec]

/-- Splitting the join of sections on the separator recovers the sections
when no occurrence of the separator starts inside any section. -/
theorem splitOnSub_joinSep (sep : Str) (hsep : sep ≠ []) :
    ∀ (sections : List Str), (∀ s ∈ sections, noMidOccB sep s = true) →
      sections ≠ [] →
      splitOnSub sep (joinSep sep sections) = sections := by
  intro sections
  induction sections with
  | nil => intro _ h; exact absurd rfl h
  | cons s rest ih =>
    intro hall _
    cases rest with
    | nil =>
      show splitOnSub sep s = [s]
      exact splitGo_eq_single sep s s.length (Nat.le_refl _)
        (noMid_no_occ hsep (hall s (List.mem_cons_self s [])))
    | cons s2 rest' =>
      show splitOnSub sep (s ++ sep ++ joinSep sep (s2 :: rest')) = s :: s2 :: rest'
      rw [splitOnSub, splitGo_append_sep sep hsep s (joinSep sep (s2 :: rest')) _
        (Nat.le_refl _) (hall s (List.mem_cons_self s _))]
      have : splitGo sep (joinSep sep (s2 :: rest')).length (joinSep sep (s2 :: rest')) =
          splitOnSub sep (joinSep sep (s2 :: rest')) := rfl
      rw [this, ih (fun x hx => hall x (List.mem_cons_of_mem s hx)) (by simp)]

/-- `lstrip` keeps a string starting with a non-whitespace character. -/
theorem lstrip_cons_nonws {c : Char} (s : Str) (h : isPyWs c = false) :
    lstrip (c :: s) = c :: s := by
  simp [lstrip, List.dropWhile_cons, h]

/-- `lstrip` removes a leading whitespace character. -/
theorem lstrip_cons_ws {c : Char} (s : Str) (h : isPyWs c = true) :
    lstrip (c :: s) = lstrip s := by
  simp [lstrip, List.dropWhile_cons, h]

/-- A `strip`-fixed string is fixed by both `lstrip` and `rstrip`. -/
theorem strip_fix_parts {s : Str} (h : strip s = s) :
    lstrip s = s ∧ rstrip s = s := by
  have hls : lstrip s <:+ s := List.dropWhile_suffix isPyWs
  have hl1 : (lstrip s).length ≤ s.length := hls.length_le
  have hr1 : (rstrip (lstrip s)).length ≤ (lstrip s).length := by
    rw [rstrip, List.length_reverse]
    calc ((lstrip s).reverse.dropWhile isPyWs).length
        ≤ (lstrip s).reverse.length := (List.dropWhile_suffix isPyWs).length_le
      _ = (lstrip s).length := List.length_reverse _
  have hlen : (lstrip s).length = s.length := by
    have : (strip s).length = s.length := by rw [h]
    rw [strip] at this
    omega
  have hfix : lstrip s = s := hls.eq_of_length hlen
  exact ⟨hfix, by rw [← hfix]; rw [strip] at h; rw [hfix] at h ⊢; exact h⟩

/-- A non-empty `lstrip`-fixed string starts with non-whitespace. -/
theorem lstrip_fix_head {c : Char} {s : Str} (h : lstrip (c :: s) = c :: s) :
    isPyWs c = false := by
  cases hc : isPyWs c with
  | false => rfl
  | true =>
    exfalso
    rw [lstrip_cons_ws s hc] at h
    have : (lstrip s).length ≤ s.length := (List.dropWhile_suffix isPyWs).length_le
    rw [h] at this
    simp at this

/-- A non-empty `rstrip`-fixed string ends with non-whitespace (stated on
the reversed string). -/
theorem rstrip_fix_revhead {s : Str} {c : Char} {r : Str}
    (h : rstrip s = s) (hrev : s.reverse = c :: r) : isPyWs c = false := by
  have hdw : s.reverse.dropWhile isPyWs = s.reverse := by
    have := congrArg List.reverse h
    rw [rstrip, List.reverse_reverse] at this
    exact this
  rw [hrev] at hdw
  cases hc : isPyWs c with
  | false => rfl
  | true =>
    exfalso
    rw [List.dropWhile_cons, hc] at hdw
    simp only [ite_true] at hdw
    have : (r.dropWhile isPyWs).length ≤ r.length := (List.dropWhile_suffix isPyWs).length_le
    rw [hdw] at this
    simp at this

/-- Appending a string that is `rstrip`-fixed and non-empty leaves the
whole append `rstrip`-fixed. -/
theorem rstrip_append_keep (a : Str) {b : Str} (hb : b ≠ [])
    (hrb : rstrip b = b) : rstrip (a ++ b) = a ++ b := by
  cases hrev : b.reverse with
  | nil =>
    exfalso
    have := congrArg List.reverse hrev
    rw [List.reverse_reverse] at this
    exact hb this
  | cons c r =>
    have hc : isPyWs c = false := rstrip_fix_revhead hrb hrev
    have hbeq : b = r.reverse ++ [c] := by
      have := congrArg List.reverse hrev
      rw [List.reverse_reverse] at this
      rw [this]
      simp
    rw [rstrip, List.reverse_append, hrev]
    rw [List.cons_append, List.dropWhile_cons, hc]
    simp only [ite_false, Bool.false_eq_true]
    rw [List.reverse_cons, List.reverse_append, List.reverse_reverse, hbeq]
    simp

/-- `rstrip` discards a trailing whitespace character. -/
theorem rstrip_append_ws (a : Str) {w : Char} (hw : isPyWs w = true) :
    rstrip (a ++ [w]) = rstrip a := by
  rw [rstrip, List.reverse_append]
  simp only [List.reverse_cons, List.reverse_nil, List.nil_append,
    List.singleton_append, List.dropWhile_cons, hw]
  rfl

/-- `splitFirstLine` on a newline-free string yields the string and no
remainder. -/
theorem splitFirstLine_no_newline {s : Str} (h : '\n' ∉ s) :
    splitFirstLine s = (s, none) := by
  induction s with
  | nil => rfl
  | cons c rest ih =>
    have hc : ¬ c = '\n' := fun hEq => h (hEq ▸ List.mem_cons_self c rest)
    have hrest : '\n' ∉ rest := fun hm => h (List.mem_cons_of_mem c hm)
    simp [splitFirstLine, hc, ih hrest]

/-- `splitFirstLine` splits at the first newline. -/
theorem splitFirstLine_append {a : Str} (b : Str) (h : '\n' ∉ a) :
    splitFirstLine (a ++ '\n' :: b) = (a, some b) := by
  induction a with
  | nil => simp [splitFirstLine]
  | cons c rest ih =>
    have hc : ¬ c = '\n' := fun hEq => h (hEq ▸ List.mem_cons_self c rest)
    have hrest : '\n' ∉ rest := fun hm => h (List.mem_cons_of_mem c hm)
    simp [splitFirstLine, hc, ih hrest]

/-- Inserting a fresh key into the model dict appends the binding. -/
theorem insertEntry_append {acc : List (Str × Str)} {k : Str} (v : Str)
    (h : k ∉ acc.map Prod.fst) : insertEntry acc k v = acc ++ [(k, v)] := by
  induction acc with
  | nil => rfl
  | cons e rest ih =>
    have hk : ¬ e.1 = k := by
      intro hEq
      exact h (by rw [← hEq]; exact List.mem_map_of_mem Prod.fst (List.mem_cons_self e rest))
    have hrest : k ∉ rest.map Prod.fst := by
      intro hm
      exact h (by rw [List.map_cons]; exact List.mem_cons_of_mem _ hm)
    cases e with
    | mk k' v' =>
      simp only [insertEntry, hk, ite_false]
      rw [ih hrest]
      rfl

/-- On a canonical section for a trimmed, newline-free, non-empty path and
a trimmed content, one `parse_repository_file` loop step of `src/main.py`
inserts exactly that path/content pair. -/
theorem stepM_section (acc : List (Str × Str)) (p c : Str)
    (hp : p ≠ []) (hps : strip p = p) (hpn : '\n' ∉ p) (hcs : strip c = c) :
    stepM acc (sectionOf (p, c)) = insertEntry acc p c := by
  obtain ⟨hpl, hpr⟩ := strip_fix_parts hps
  obtain ⟨hcl, hcr⟩ := strip_fix_parts hcs
  have hFp_nn : '\n' ∉ str "FILE: " ++ p := by
    intro hm
    rcases List.mem_append.mp hm with h1 | h2
    · revert h1; decide
    · exact hpn h2
  have hlF : ∀ t : Str, lstrip ('F' :: t) = 'F' :: t :=
    fun t => lstrip_cons_nonws t (by decide)
  have hrFp : rstrip (str "FILE: " ++ p) = str "FILE: " ++ p :=
    rstrip_append_keep _ hp hpr
  have hne : str "FILE: " ++ p ≠ [] := by
    rw [show str "FILE: " ++ p = 'F' :: (str "ILE: " ++ p) from rfl]
    exact List.cons_ne_nil _ _
  have hpre : (str "FILE:").isPrefixOf (str "FILE: " ++ p) = true := rfl
  have hdrop : (str "FILE: " ++ p).drop 5 = ' ' :: p := rfl
  have hfn : strip (' ' :: p) = p := by
    rw [strip, lstrip_cons_ws p (by decide), hpl, hpr]
  cases c with
  | nil =>
    have hstrip : strip (sectionOf (p, [])) = str "FILE: " ++ p := by
      rw [strip]
      have hl : lstrip (sectionOf (p, [])) = sectionOf (p, []) := hlF _
      rw [hl]
      rw [show sectionOf (p, []) = (str "FILE: " ++ p) ++ ['\n'] from rfl]
      rw [rstrip_append_ws _ (by decide), hrFp]
    simp [stepM, hstrip, splitFirstLine_no_newline hFp_nn, hne,
      hpre, hdrop, hfn, hp]
  | cons d c' =>
    have hstrip : strip (sectionOf (p, d :: c')) = sectionOf (p, d :: c') := by
      rw [strip]
      have hl : lstrip (sectionOf (p, d :: c')) = sectionOf (p, d :: c') := hlF _
      rw [hl]
      rw [show sectionOf (p, d :: c') = ((str "FILE: " ++ p) ++ ['\n']) ++ (d :: c') by simp [sectionOf]]
      exact rstrip_append_keep _ (List.cons_ne_nil d c') hcr
    have hsfl : splitFirstLine (sectionOf (p, d :: c')) =
        (str "FILE: " ++ p, some (d :: c')) :=
      splitFirstLine_append (d :: c') hFp_nn
    have hsecne : sectionOf (p, d :: c') ≠ [] := by
      rw [show sectionOf (p, d :: c') = 'F' :: (str "ILE: " ++ p ++ '\n' :: (d :: c')) from rfl]
      exact List.cons_ne_nil _ _
    simp only [stepM, hstrip, hsfl, hpre, hdrop, hfn]
    simp [hsecne, hp, hcs]

/-- Folding the main-variant parser step over canonical sections appends
all the dump's entries in order. -/
theorem foldl_stepM_sections :
    ∀ (files : List (Str × Str)) (acc : List (Str × Str)),
      (∀ pc ∈ files,
        pc.1 ≠ [] ∧ strip pc.1 = pc.1 ∧ '\n' ∉ pc.1 ∧ strip pc.2 = pc.2) →
      (∀ pc ∈ files, pc.1 ∉ acc.map Prod.fst) →
      (files.map Prod.fst).Nodup →
      (files.map sectionOf).foldl stepM acc = acc ++ files := by
  intro files
  induction files with
  | nil => intro acc _ _ _; simp
  | cons pc rest ih =>
    intro acc hcond hdisj hnd
    obtain ⟨p, c⟩ := pc
    have h0 := hcond (p, c) (List.mem_cons_self _ _)
    rw [List.map_cons, List.foldl_cons,
      stepM_section acc p c h0.1 h0.2.1 h0.2.2.1 h0.2.2.2,
      insertEntry_append c (hdisj (p, c) (List.mem_cons_self _ _))]
    have hnd' := List.nodup_cons.mp (by rw [List.map_cons] at hnd; exact hnd)
    rw [ih (acc ++ [(p, c)]) (fun x hx => hcond x (List.mem_cons_of_mem _ hx))
      ?_ hnd'.2]
    · simp
    · intro x hx
      rw [List.map_append]
      intro hm
      rcases List.mem_append.mp hm with h1 | h2
      · exact hdisj x (List.mem_cons_of_mem _ hx) h1
      · have hxp : x.1 = p := by simpa using h2
        exact hnd'.1 (List.mem_map.mpr ⟨x, hx, hxp⟩)

/-- C7 (counterexample): round-tripping the dump `{"a.py": " x"}` through
the canonical serializer and the `src/main.py` parser loses the leading
space of the content, so `parse(serialize(D)) ≠ D` for this valid dump. -/
theorem c7_counterexample :
    parseDumpM (serializeDump [(str "a.py", str " x")]) =
      [(str "a.py", str "x")] ∧
    str "x" ≠ str " x" := by
  refine ⟨by decide, by decide⟩

/-- C7 (amended): the round-trip `parse(serialize(D)) = D` holds for every
dump whose paths are non-empty, trimmed and newline-free, whose contents
are trimmed, whose sections contain no internal occurrence of the
delimiter line, and whose paths are distinct. -/
theorem c7_roundtrip (files : List (Str × Str))
    (hpath : ∀ pc ∈ files, pc.1 ≠ [] ∧ strip pc.1 = pc.1 ∧ '\n' ∉ pc.1)
    (hcont : ∀ pc ∈ files, strip pc.2 = pc.2)
    (hsep : ∀ pc ∈ files, noMidOccB sepM (sectionOf pc) = true)
    (hnd : (files.map Prod.fst).Nodup) :
    parseDumpM (serializeDump files) = files := by
  cases hfe : files with
  | nil => rfl
  | cons pc rest =>
    subst hfe
    have hone : sectionOf pc ≠ [] := by
      rw [show sectionOf pc = 'F' :: (str "ILE: " ++ pc.1 ++ '\n' :: pc.2) from rfl]
      exact List.cons_ne_nil _ _
    have hu : ∃ u, serializeDump (pc :: rest) = sectionOf pc ++ u := by
      rw [serializeDump, List.map_cons]
      cases rest.map sectionOf with
      | nil => exact ⟨[], by simp [joinSep]⟩
      | cons s2 r2 => exact ⟨sepM ++ joinSep sepM (s2 :: r2), by simp [joinSep]⟩
    have hne : serializeDump (pc :: rest) ≠ [] := by
      obtain ⟨u, hu'⟩ := hu
      rw [hu']
      intro hcon
      exact hone (List.append_eq_nil.mp hcon).1
    rw [parseDumpM, if_neg hne, serializeDump,
      splitOnSub_joinSep sepM (by decide) _
        (fun s hs => by
          obtain ⟨x, hx, hxe⟩ := List.mem_map.mp hs
          exact hxe ▸ hsep x hx)
        (by simp)]
    rw [foldl_stepM_sections (pc :: rest) []
      (fun x hx => ⟨(hpath x hx).1, (hpath x hx).2.1, (hpath x hx).2.2, hcont x hx⟩)
      (fun x _ => by simp) hnd]
    simp

/-- C7 witness: a concrete two-file dump satisfying the amended conditions
round-trips exactly. -/
theorem c7_roundtrip_witness :
    parseDumpM (serializeDump
        [(str "a.py", str "print(1)"), (str "b.py", str "print(2)")]) =
      [(str "a.py", str "print(1)"), (str "b.py", str "print(2)")] :=
  c7_roundtrip [(str "a.py", str "print(1)"), (str "b.py", str "print(2)")]
    (by decide) (by decide) (by decide) (by decide)

/-- C1: for every reply whose first alternative's text is, after optional
fence stripping, exactly a JSON object, the normalizer returns the
object's four list fields (each coerced to `[]` when absent or not
list-shaped), the float-coerced score (or `none` when absent, null or
unconvertible), the full raw text, and no error. -/
theorem c1_direct_json (message : Str) (rest : List Str) (j : Json)
    (hb : (['\x7b'] : Str).isPrefixOf (cleanMessage message) = true)
    (he : (['\x7d'] : Str).isSuffixOf (cleanMessage message) = true)
    (hj : jsonParse (cleanMessage message) = some j) :
    parseAnalysisResponse (.result (message :: rest)) =
      { quality_issues := coerceList (jGet j (str "quality_issues")),
        good_practices := coerceList (jGet j (str "good_practices")),
        patterns := coerceList (jGet j (str "patterns")),
        anti_patterns := coerceList (jGet j (str "anti_patterns")),
        overall_score := coerceScore (jGet j (str "overall_score")),
        raw_response := message,
        error := none } := by
  have hx : extractJson message = some j := by
    simp only [extractJson, hb, he, and_self, ite_true, hj]
  simp only [parseAnalysisResponse, hx]

/-- C1 witness: the spec's end-to-end scenario 2 reply is normalized to
exactly its JSON fields. -/
theorem c1_direct_json_witness :
    parseAnalysisResponse (.result [exampleJsonReply]) =
      { quality_issues := [Json.str (str "X")], good_practices := [],
        patterns := [], anti_patterns := [],
        overall_score := some (mkRat 15 2),
        raw_response := exampleJsonReply, error := none } :=
  (c1_direct_json exampleJsonReply [] exampleJsonObj rfl rfl rfl).trans rfl

/-- C2 (counterexample): the claim that a present score always lies in
`[0, 10]` fails — the reply `{"overall_score": 15}` is normalized to the
score `15`, which exceeds `10`. -/
theorem c2_counterexample :
    (parseAnalysisResponse (.result [exampleBigScoreReply])).overall_score =
      some (mkRat 15 1) ∧
    ¬ (mkRat 15 1 ≤ (10 : Rat)) :=
  ⟨rfl, by decide⟩

/-- C2 (amended): after tier-1/2 parsing, a numeric model score passes
through as its exact float coercion with no clamping, whatever its
value. -/
theorem c2_score_passthrough (message : Str) (rest : List Str) (j : Json) (q : Rat)
    (hb : (['\x7b'] : Str).isPrefixOf (cleanMessage message) = true)
    (he : (['\x7d'] : Str).isSuffixOf (cleanMessage message) = true)
    (hj : jsonParse (cleanMessage message) = some j)
    (hs : jGet j (str "overall_score") = some (Json.num q)) :
    (parseAnalysisResponse (.result (message :: rest))).overall_score = some q := by
  have hx : extractJson message = some j := by
    simp only [extractJson, hb, he, and_self, ite_true, hj]
  simp only [parseAnalysisResponse, hx, hs, coerceScore]

/-- C2 witness: a reply reporting `12.5` keeps the out-of-range score
`12.5` unchanged. -/
theorem c2_score_passthrough_witness :
    (parseAnalysisResponse (.result [str "\x7b\"overall_score\": 12.5\x7d"])).overall_score =
      some (mkRat 25 2) ∧ ¬ (mkRat 25 2 ≤ (10 : Rat)) :=
  ⟨c2_score_passthrough (str "\x7b\"overall_score\": 12.5\x7d") []
      (Json.obj [(str "overall_score", Json.num (mkRat 25 2))]) (mkRat 25 2)
      rfl rfl rfl rfl,
   by decide⟩

/-- C3: when both JSON tiers fail and the numbered prose sections are
present, the regex fallback fills `quality_issues` and `good_practices`
from the bullet- or number-prefixed lines, takes the score from the
`<number>/10` pattern, and leaves `patterns` and `anti_patterns` empty. -/
theorem c3_regex_fallback (message : Str) (rest : List Str) (t1 t2 lit : Str)
    (hjson : extractJson message = none)
    (h1 : searchSection '1' '2' (str "code quality issues") message = some t1)
    (h2 : searchSection '2' '3' (str "good practices") message = some t2)
    (h3 : searchScore message = some lit) :
    parseAnalysisResponse (.result (message :: rest)) =
      { quality_issues := (itemsOf (strip t1)).map Json.str,
        good_practices := (itemsOf (strip t2)).map Json.str,
        patterns := [],
        anti_patterns := [],
        overall_score := strToFloat lit,
        raw_response := message,
        error := none } := by
  simp only [parseAnalysisResponse, hjson, h1, h2, h3]

/-- C3 witness: the concrete numbered-prose reply is normalized by the
fallback tier to its bullet items and `7.5/10` score with empty
`patterns`/`anti_patterns`. -/
theorem c3_regex_fallback_witness :
    parseAnalysisResponse (.result [exampleProseReply]) =
      { quality_issues := [Json.str (str "Magic numbers in foo.py"),
          Json.str (str "Long function")],
        good_practices := [Json.str (str "Uses context manager")],
        patterns := [], anti_patterns := [],
        overall_score := some (mkRat 15 2),
        raw_response := exampleProseReply, error := none } :=
  (c3_regex_fallback exampleProseReply []
    (str "- Magic numbers in foo.py\n- Long function")
    (str "- Uses context manager") (str "7.5") rfl rfl rfl rfl).trans rfl

/-- C4: a successful reply with no recoverable JSON and no recognizable
numbered sections is normalized to empty lists, a null score, no error,
and the untouched raw text; moreover the raw-response field always equals
the first alternative's full text whatever tier applied. -/
theorem c4_ungrounded (message : Str) (rest : List Str)
    (hjson : extractJson message = none)
    (h1 : searchSection '1' '2' (str "code quality issues") message = none)
    (h2 : searchSection '2' '3' (str "good practices") message = none)
    (h3 : searchScore message = none) :
    parseAnalysisResponse (.result (message :: rest)) =
      { quality_issues := [], good_practices := [], patterns := [],
        anti_patterns := [], overall_score := none,
        raw_response := message, error := none } ∧
    ∀ (m : Str) (r : List Str),
      (parseAnalysisResponse (.result (m :: r))).raw_response = m := by
  constructor
  · simp only [parseAnalysisResponse, hjson, h1, h2, h3, List.map_nil]
  · intro m r
    cases hx : extractJson m with
    | some j => simp [parseAnalysisResponse, hx]
    | none => simp [parseAnalysisResponse, hx]

/-- C4 witness: the spec's end-to-end scenario 3 on a plain prose reply. -/
theorem c4_ungrounded_witness :
    parseAnalysisResponse (.result [examplePlainReply]) =
      { quality_issues := [], good_practices := [], patterns := [],
        anti_patterns := [], overall_score := none,
        raw_response := examplePlainReply, error := none } ∧
    (parseAnalysisResponse (.result [exampleJsonReply])).raw_response =
      exampleJsonReply :=
  ⟨(c4_ungrounded examplePlainReply [] rfl rfl rfl rfl).1,
   (c4_ungrounded examplePlainReply [] rfl rfl rfl rfl).2 exampleJsonReply []⟩

/-- C5: an error marker from the Model Client short-circuits to an
AnalysisResult carrying that error (prefixed `API Error: `) with all four
lists empty and a null score; no extraction tier runs on it. -/
theorem c5_error_short_circuit (e : Str) :
    parseAnalysisResponse (.error e) =
      { quality_issues := [], good_practices := [], patterns := [],
        anti_patterns := [], overall_score := none,
        raw_response := str "API Error: " ++ e,
        error := some (str "API Error: " ++ e) } := rfl
